import Mathlib

/-!
Verification of the attachment-upload confirmation subsystem
(`src/browser/actions/attachments.ts`).

Strings are modelled as `List Char`.  The JavaScript string primitives used by
the source (`toLowerCase` restricted to ASCII case mapping, `replace(/\s+/g,' ')`,
`trim`, `includes`, the extension-stripping regex, the regex-escape +
ellipsis-wildcard construction and unanchored `RegExp.test`) are embedded as
executable Lean functions, and the polling loops are embedded as recursions over
explicit snapshot sequences with integer millisecond timestamps.
-/

namespace Oracle

/-- Helper: `Char.ofNat` of a valid codepoint round-trips through `toNat`. -/
theorem char_toNat_ofNat {n : Nat} (h : n.isValidChar) : (Char.ofNat n).toNat = n := by
  simp [Char.ofNat, h, Char.ofNatAux, Char.toNat, UInt32.toNat, BitVec.toNat_ofNatLt]

/-- Convenience: the character list of a string literal. -/
def strL (s : String) : List Char := s.data

/-- ASCII case folding, the fragment of JavaScript `String.prototype.toLowerCase`
exercised by filename matching: `A`-`Z` map to `a`-`z`, everything else is fixed. -/
def toLowerAscii (c : Char) : Char :=
  if 65 ≤ c.toNat ∧ c.toNat ≤ 90 then Char.ofNat (c.toNat + 32) else c

/-- The JavaScript `\s` character class (also the `String.prototype.trim` set):
space, tab, LF, VT, FF, CR, NBSP, Ogham space, the U+2000 block, line/paragraph
separators, narrow NBSP, MMSP, ideographic space and the BOM. -/
def isJsSpace (c : Char) : Bool :=
  decide (c.toNat = 32 ∨ (9 ≤ c.toNat ∧ c.toNat ≤ 13) ∨ c.toNat = 160 ∨
    c.toNat = 0x1680 ∨ (0x2000 ≤ c.toNat ∧ c.toNat ≤ 0x200a) ∨
    c.toNat = 0x2028 ∨ c.toNat = 0x2029 ∨ c.toNat = 0x202f ∨
    c.toNat = 0x205f ∨ c.toNat = 0x3000 ∨ c.toNat = 0xfeff)

/-- `replace(/\s+/g, ' ')`: every maximal run of whitespace becomes one space. -/
def collapseWs : List Char → List Char
  | [] => []
  | [c] => if isJsSpace c then [' '] else [c]
  | c :: d :: rest =>
    if isJsSpace c then
      if isJsSpace d then collapseWs (d :: rest) else ' ' :: collapseWs (d :: rest)
    else c :: collapseWs (d :: rest)

/-- `String.prototype.trim`: drop whitespace from both ends. -/
def trimWs (s : List Char) : List Char :=
  ((s.dropWhile isJsSpace).reverse.dropWhile isJsSpace).reverse

/-- The normalization applied to candidate and expected names in
`waitForAttachmentCompletion` and `waitForUserTurnAttachments`:
`.toLowerCase().replace(/\s+/g, ' ').trim()`. -/
def normalizeName (s : List Char) : List Char :=
  trimWs (collapseWs (s.map toLowerAscii))

/-- JavaScript `String.prototype.includes`: `containsSub needle hay` is true
iff `needle` occurs contiguously inside `hay` (an empty needle always occurs). -/
def containsSub : List Char → List Char → Bool
  | needle, [] => needle.isEmpty
  | needle, c :: rest => needle.isPrefixOf (c :: rest) || containsSub needle rest

/-- The suffix of `s` after the last occurrence of `sep`
(`s.split(sep).pop()`). -/
def lastSegment (sep : Char) (s : List Char) : List Char :=
  (s.reverse.takeWhile (fun c => c ≠ sep)).reverse

/-- `expected.split('/').pop()?.split('\\').pop() ?? expected`: the path
basename with respect to both separator conventions. -/
def baseName (s : List Char) : List Char :=
  lastSegment '\\' (lastSegment '/' s)

/-- The `[a-z0-9]` class under the `i` flag: ASCII letters and digits. -/
def isAsciiAlnum (c : Char) : Bool :=
  (97 ≤ c.toNat && c.toNat ≤ 122) || (48 ≤ c.toNat && c.toNat ≤ 57) ||
  (65 ≤ c.toNat && c.toNat ≤ 90)

/-- `replace(/\.[a-z0-9]{1,10}$/i, '')`: strip a trailing dot followed by one
to ten ASCII alphanumerics, i.e. strip iff the maximal alphanumeric suffix has
length between 1 and 10 and is preceded by a literal dot. -/
def stripExt (s : List Char) : List Char :=
  let r := s.reverse
  let ext := r.takeWhile isAsciiAlnum
  if 1 ≤ ext.length ∧ ext.length ≤ 10 ∧ (r.drop ext.length).head? = some '.' then
    (r.drop (ext.length + 1)).reverse
  else s

/-- The character class escaped by `raw.replace(/[.*+?^${}()|[\]\\]/g, '\\$&')`. -/
def isRegexSpecial (c : Char) : Bool :=
  c == '.' || c == '*' || c == '+' || c == '?' || c == '^' || c == '$' ||
  c == '{' || c == '}' || c == '(' || c == ')' || c == '|' || c == '[' ||
  c == ']' || c == '\\'

/-- Prefix every regex-special character with a backslash. -/
def escapeRegex : List Char → List Char
  | [] => []
  | c :: cs =>
    if isRegexSpecial c then '\\' :: c :: escapeRegex cs else c :: escapeRegex cs

/-- The wildcard substitution of `waitForAttachmentCompletion`:
`escaped.replace(/\…|\.\.\./g, '.*')` scans left to right replacing a literal
backslash followed by the ellipsis character, or three backslash-escaped dots,
with `.*` (the regex literal in the source spells these `\\…` and
`\\\.\\\.\\\.`). -/
def replaceWildcardCompletion : List Char → List Char
  | '\\' :: '…' :: rest => '.' :: '*' :: replaceWildcardCompletion rest
  | '\\' :: '.' :: '\\' :: '.' :: '\\' :: '.' :: rest =>
    '.' :: '*' :: replaceWildcardCompletion rest
  | c :: rest => c :: replaceWildcardCompletion rest
  | [] => []

/-- `escaped.replaceAll('…', '.*')` in `waitForAttachmentAnchored`. -/
def replaceAllEllipsisChar : List Char → List Char
  | '…' :: rest => '.' :: '*' :: replaceAllEllipsisChar rest
  | c :: rest => c :: replaceAllEllipsisChar rest
  | [] => []

/-- `.replaceAll('...', '.*')` (three literal dots) in `waitForAttachmentAnchored`. -/
def replaceAllTripleDot : List Char → List Char
  | '.' :: '.' :: '.' :: rest => '.' :: '*' :: replaceAllTripleDot rest
  | c :: rest => c :: replaceAllTripleDot rest
  | [] => []

/-- A regex atom in the fragment the wildcard patterns can produce: a literal
character or the metacharacter dot. -/
inductive RAtom
  | lit (c : Char)
  | dot
deriving DecidableEq

/-- `dot` matches any character except a JavaScript line terminator. -/
def matchAtom : RAtom → Char → Bool
  | .lit c, x => x == c
  | .dot, x =>
    !(x.toNat == 10 || x.toNat == 13 || x.toNat == 0x2028 || x.toNat == 0x2029)

/-- A piece of a pattern: an atom, possibly under a Kleene star. -/
structure RPiece where
  atom : RAtom
  many : Bool
deriving DecidableEq

/-- Read a pattern string (in the fragment produced by the escape + wildcard
pipeline: backslash-escaped literals, plain literals, `.` and postfix `*`)
into its pieces. -/
def parsePattern : List Char → List RPiece
  | [] => []
  | '\\' :: c :: '*' :: rest => ⟨.lit c, true⟩ :: parsePattern rest
  | '\\' :: c :: rest => ⟨.lit c, false⟩ :: parsePattern rest
  | '.' :: '*' :: rest => ⟨.dot, true⟩ :: parsePattern rest
  | '.' :: rest => ⟨.dot, false⟩ :: parsePattern rest
  | c :: '*' :: rest => ⟨.lit c, true⟩ :: parsePattern rest
  | c :: rest => ⟨.lit c, false⟩ :: parsePattern rest

/-- Fuelled matcher for a piece list against a prefix of `s` (no end anchor:
trailing characters of `s` may remain).  Every recursive call strictly
decreases `ps.length + s.length`, so any fuel above that bound is exact. -/
def matchPiecesAux : Nat → List RPiece → List Char → Bool
  | 0, _, _ => false
  | _ + 1, [], _ => true
  | _ + 1, ⟨_, false⟩ :: _, [] => false
  | fuel + 1, ⟨a, false⟩ :: ps, c :: cs => matchAtom a c && matchPiecesAux fuel ps cs
  | fuel + 1, ⟨_, true⟩ :: ps, [] => matchPiecesAux fuel ps []
  | fuel + 1, ⟨a, true⟩ :: ps, c :: cs =>
    matchPiecesAux fuel ps (c :: cs) ||
      (matchAtom a c && matchPiecesAux fuel (⟨a, true⟩ :: ps) cs)

/-- Match a piece list against a prefix of `s`, with sufficient fuel. -/
def matchPieces (ps : List RPiece) (s : List Char) : Bool :=
  matchPiecesAux (ps.length + s.length + 1) ps s

/-- Unanchored search, the semantics of `RegExp.prototype.test`: the pattern
matches starting at some position of `s`. -/
def searchPieces (ps : List RPiece) : List Char → Bool
  | [] => matchPieces ps []
  | c :: cs => matchPieces ps (c :: cs) || searchPieces ps cs

/-- `new RegExp(pattern).test(target)` for the pattern fragment above. -/
def reTest (pattern target : List Char) : Bool :=
  searchPieces (parsePattern pattern) target

example : normalizeName (strL "  Budget   2024.PDF\t") = strL "budget 2024.pdf" := by decide
example : stripExt (strL "report.csv") = strL "report" := by decide
example : stripExt (strL "img.png") = strL "img" := by decide
example : stripExt (strL "archive.tar.gz") = strL "archive.tar" := by decide
example : stripExt (strL "file.abcdefghijk") = strL "file.abcdefghijk" := by decide
example : stripExt (strL "name.") = strL "name." := by decide
example : baseName (strL "a/b\\c.txt") = strL "c.txt" := by decide
example : containsSub (strL "port") (strL "report") = true := by decide
example : containsSub (strL "xyz") (strL "report") = false := by decide

/-- The body of the `attachedNames.some((raw) => ...)` callback inside
`matchesExpected` of `waitForAttachmentCompletion` (lines 271-285): direct
substring, extension-stripped stem under the length-6 guard, then the
ellipsis-wildcard fallback built by escape + `replace(/\…|\.\.\./g, '.*')`. -/
def matchRawCompletion (raw nExp nExpNoExt : List Char) : Bool :=
  if containsSub nExp raw then true
  else if 6 ≤ nExpNoExt.length ∧ containsSub nExpNoExt raw then true
  else if containsSub (strL "…") raw || containsSub (strL "...") raw then
    let pat := replaceWildcardCompletion (escapeRegex raw)
    reTest pat nExp || (decide (6 ≤ nExpNoExt.length) && reTest pat nExpNoExt)
  else false

/-- `matchesExpected` of `waitForAttachmentCompletion`: `expected` is an
element of `expectedNormalized` (already lower-cased by the caller);
`attachedNames` is the list of chip/card texts after normalization and the
non-empty filter. -/
def matchesExpectedCompletion (attachedNames : List (List Char)) (expected : List Char) : Bool :=
  let nExp := normalizeName (baseName expected)
  let nExpNoExt := stripExt nExp
  attachedNames.any fun raw => matchRawCompletion raw nExp nExpNoExt

/-- The completion matcher as a predicate on one raw candidate string and one
raw expected filename, composing the page-side lower-casing, the TS-side
normalization and the non-empty filter exactly as the polling loop does. -/
def matchCandCompletion (cand expected : List Char) : Bool :=
  matchesExpectedCompletion
    (([normalizeName (cand.map toLowerAscii)].filter fun n => !n.isEmpty))
    (expected.map toLowerAscii)

/-- The body of `matchesExpected` in `waitForAttachmentAnchored` (lines
450-466): lower-case the candidate, reject empty, then substring, stem, and
the ellipsis-wildcard fallback built by escape + `replaceAll('…', '.*')` +
`replaceAll('...', '.*')`. -/
def matchRawAnchored (value nExp nExpNoExt : List Char) : Bool :=
  let text := value.map toLowerAscii
  if text.isEmpty then false
  else if containsSub nExp text then true
  else if 6 ≤ nExpNoExt.length ∧ containsSub nExpNoExt text then true
  else if containsSub (strL "…") text || containsSub (strL "...") text then
    let pat := replaceAllTripleDot (replaceAllEllipsisChar (escapeRegex text))
    reTest pat nExp || (decide (6 ≤ nExpNoExt.length) && reTest pat nExpNoExt)
  else false

/-- The anchored matcher on one raw candidate and one raw expected filename
(the page expression receives `expectedName.toLowerCase()`). -/
def matchCandAnchored (value expected : List Char) : Bool :=
  let nExp := expected.map toLowerAscii
  matchRawAnchored value nExp (stripExt nExp)

/-- The per-value test inside `matchNode` of `waitForAttachmentVisible` (lines
400-409): lower-cased attribute values, `filter(Boolean)`, then substring or
stem containment only — no ellipsis rule. -/
def matchCandVisible (value expected : List Char) : Bool :=
  let normalized := expected.map toLowerAscii
  let noExt := stripExt normalized
  let v := value.map toLowerAscii
  if v.isEmpty then false
  else containsSub normalized v || (decide (6 ≤ noExt.length) && containsSub noExt v)

/-- The per-expected test of the `missing` filter in
`waitForUserTurnAttachments` (lines 368-375): `expected` is an element of
`expectedNormalized` and `haystack` is the joined turn text as the page
returned it (already lower-cased). -/
def userTurnExpectedFound (haystack expected : List Char) : Bool :=
  let nExp := normalizeName (baseName expected)
  let noExt := stripExt nExp
  containsSub nExp haystack || (decide (6 ≤ noExt.length) && containsSub noExt haystack)

/-- The user-turn matcher as a predicate on one raw candidate string and one
raw expected filename, composing the page-side lower-casing of the haystack
with the caller's lower-casing of the expected name. -/
def matchCandUserTurn (haystack expected : List Char) : Bool :=
  userTurnExpectedFound (haystack.map toLowerAscii) (expected.map toLowerAscii)

example : matchCandCompletion (strL "budget-202...xlsx") (strL "budget-2024-full-report.xlsx") = true := by decide
example : matchCandCompletion (strL "budget-202…xlsx") (strL "budget-2024-full-report.xlsx") = false := by decide
example : matchCandAnchored (strL "budget-202…xlsx") (strL "budget-2024-full-report.xlsx") = true := by decide
example : matchCandAnchored (strL "budget-202...xlsx") (strL "budget-2024-full-report.xlsx") = false := by decide
example : matchCandCompletion (strL "report") (strL "report.csv") = true := by decide
example : matchCandCompletion (strL "img") (strL "img.png") = false := by decide
example : matchCandCompletion (strL "Budget 2024.PDF") (strL "budget  2024.pdf") = true := by decide
example : matchCandVisible (strL "budget-202…xlsx") (strL "budget-2024-full-report.xlsx") = false := by decide
example : matchCandUserTurn (strL "budget-202…xlsx") (strL "budget-2024-full-report.xlsx") = false := by decide

/-- The send-control state computed by the probe expression of
`waitForAttachmentCompletion`: `'ready'`, `'disabled'`, or `'missing'`. -/
inductive ControlState
  | ready
  | disabled
  | missing
deriving DecidableEq

/-- One probe snapshot of `waitForAttachmentCompletion` (the object returned
by the page expression, lines 203-250): send-control state, uploading
indicator, whether any chip/card text was collected, and the raw chip/card
and file-input name lists. -/
structure ProbeSnapshot where
  state : ControlState
  uploading : Bool
  filesAttached : Bool
  attachedNames : List (List Char)
  inputNames : List (List Char)
deriving DecidableEq

/-- The outcome of one iteration of the polling loop body: return, or sleep
for a given number of milliseconds carrying the updated `inputMatchSince`. -/
inductive TickResult
  | success
  | sleep (ms : Nat) (inputMatchSince : Option Nat)
deriving DecidableEq

/-- The per-expected test of the `inputMissing` filter (lines 304-309):
substring or guarded stem containment in some normalized file-input name. -/
def inputNameMatches (inputNames : List (List Char)) (expected : List Char) : Bool :=
  let nExp := normalizeName (baseName expected)
  let noExt := stripExt nExp
  inputNames.any fun raw =>
    containsSub nExp raw || (decide (6 ≤ noExt.length) && containsSub noExt raw)

/-- One iteration of the `waitForAttachmentCompletion` loop body (lines
251-321) on a snapshot observed at time `now` (milliseconds): skip everything
while `uploading`; otherwise normalize the name lists, decide on chip/card
evidence (return on `ready`, return on `missing` with chips, extra 500 ms
sleep on chips without readiness), else fall back to the debounced
file-input + ready condition; every other path sleeps 250 ms. -/
def completionTick (now : Nat) (inputMatchSince : Option Nat) (v : ProbeSnapshot)
    (expectedNormalized : List (List Char)) : TickResult :=
  if v.uploading then .sleep 250 inputMatchSince
  else
    let attachedNames := (v.attachedNames.map normalizeName).filter fun n => !n.isEmpty
    let inputNames := (v.inputNames.map normalizeName).filter fun n => !n.isEmpty
    let missing := expectedNormalized.filter fun e => !matchesExpectedCompletion attachedNames e
    if missing.isEmpty ∧ v.state = .ready then .success
    else if missing.isEmpty ∧ v.state = .missing ∧ v.filesAttached then .success
    else if missing.isEmpty ∧ v.filesAttached then .sleep 500 inputMatchSince
    else
      let inputMissing := expectedNormalized.filter fun e => !inputNameMatches inputNames e
      if inputMissing.isEmpty ∧ v.state = .ready then
        let since := inputMatchSince.getD now
        if 1500 < now - since then .success else .sleep 250 (some since)
      else .sleep 250 none

/-- Run the `waitForAttachmentCompletion` loop over an explicit sequence of
timestamped snapshots; `none` for an exhausted sequence models the deadline
expiring (the terminal timeout throw), `some t` a successful return at the
tick observed at time `t`. -/
def completionRun (expectedNormalized : List (List Char)) :
    Option Nat → List (Nat × ProbeSnapshot) → Option Nat
  | _, [] => none
  | ims, (t, v) :: rest =>
    match completionTick t ims v expectedNormalized with
    | .success => some t
    | .sleep _ ims' => completionRun expectedNormalized ims' rest

/-- Fuelled body of the `waitForAttachmentVisible` polling loop (lines
428-435): with the probe outcome abstracted as a boolean function of the poll
time, each iteration checks the deadline, probes, and either returns at the
current time or sleeps 200 ms.  The pair is (returned-with-success, finish
time); `false` means the loop exited to the terminal timeout throw. -/
def visibleRunAux : Nat → (Nat → Bool) → Nat → Nat → Bool × Nat
  | 0, _, now, _ => (false, now)
  | fuel + 1, found, now, deadline =>
    if now < deadline then
      if found now then (true, now) else visibleRunAux fuel found (now + 200) deadline
    else (false, now)

/-- `waitForAttachmentVisible` from entry time `start` with deadline
`start + timeoutMs`; the fuel `timeoutMs + 1` dominates the iteration count
since every sleep advances the clock by 200 ms. -/
def waitForAttachmentVisibleRun (found : Nat → Bool) (start timeoutMs : Nat) : Bool × Nat :=
  visibleRunAux (timeoutMs + 1) found start (start + timeoutMs)

/-- One probe of `waitForUserTurnAttachments`: either no user turn was found
(`ok: false`, keep polling) or the last user turn's joined text and
attribute strings, as returned by the page (already lower-cased). -/
inductive TurnProbe
  | notOk
  | ok (text : List Char) (attrs : List (List Char))

/-- The loop of `waitForUserTurnAttachments` (lines 360-380) over an explicit
probe sequence, counting performed probes; an exhausted sequence models the
deadline expiring.  Returns (success, number of page probes performed). -/
def userTurnLoop (expectedNormalized : List (List Char)) : List TurnProbe → Bool × Nat
  | [] => (false, 0)
  | .notOk :: rest =>
    let r := userTurnLoop expectedNormalized rest
    (r.1, r.2 + 1)
  | .ok text attrs :: rest =>
    let haystack := List.intercalate [Char.ofNat 10] (text :: attrs)
    let missing := expectedNormalized.filter fun e => !userTurnExpectedFound haystack e
    if missing.isEmpty then (true, 1)
    else
      let r := userTurnLoop expectedNormalized rest
      (r.1, r.2 + 1)

/-- `waitForUserTurnAttachments` (lines 328-385): the guard at entry returns
immediately when `expectedNames` is empty, before the probe expression is
even built; otherwise the names are lower-cased and the polling loop runs. -/
def waitForUserTurnAttachmentsRun (expectedNames : List (List Char))
    (probes : List TurnProbe) : Bool × Nat :=
  if expectedNames.isEmpty then (true, 0)
  else userTurnLoop (expectedNames.map (List.map toLowerAscii)) probes

/-- The page responses `uploadAttachmentFile` consumes, one field per probe:
whether the presence pre-check finds the attachment, whether the tagging
expression found a file input, the node id resolved by the structural DOM
query, whether the post-dispatch snapshot shows the file in an input, and the
outcomes of the two nested waits. -/
structure UploadPage where
  attachmentPresent : Bool
  inputTagged : Bool
  queryNodeId : Option Nat
  inputHasFile : Bool
  anchored : Bool
  visibleOk : Bool

/-- The externally visible operations `uploadAttachmentFile` performs, in
order: script evaluations, structural DOM calls, the file assignment, the
synthesized events, the nested waits and diagnostic captures. -/
inductive UploadEffect
  | evalClickPlus
  | evalClickMenu
  | evalPresenceCheck
  | evalMarkInput
  | domGetDocument
  | domQuery
  | setFileInputFiles (nodeId : Nat)
  | evalDispatchEvents
  | evalSnapshot
  | waitAnchored
  | waitVisible
  | diagnostic (tag : List Char)
deriving DecidableEq

/-- The errors `uploadAttachmentFile` can throw. -/
inductive UploadError
  | domUnavailable
  | inputNotFound
  | composerNotRegistered
  | visibleTimeout
deriving DecidableEq

/-- `uploadAttachmentFile` (lines 7-192) as a function from the DOM-channel
availability and the page responses to its outcome and ordered effect trace:
throw at once if `deps.dom` is absent; click the composer menu best-effort;
short-circuit if the attachment is already present; tag a file input or throw
a locator error after diagnostics; resolve the tagged node or throw likewise;
dispatch the files and events; then confirm via the anchored/visible waits or
the file-input fallback, else throw after diagnostics. -/
def uploadAttachmentFile (domAvailable : Bool) (p : UploadPage) :
    Except UploadError Unit × List UploadEffect :=
  if !domAvailable then (.error .domUnavailable, [])
  else
    let pre := [UploadEffect.evalClickPlus, .evalClickMenu, .evalPresenceCheck]
    if p.attachmentPresent then (.ok (), pre)
    else if !p.inputTagged then
      (.error .inputNotFound,
        pre ++ [.evalMarkInput, .diagnostic (strL "file-input-missing")])
    else
      match p.queryNodeId with
      | none =>
        (.error .inputNotFound,
          pre ++ [.evalMarkInput, .domGetDocument, .domQuery,
            .diagnostic (strL "file-input-missing")])
      | some nid =>
        let effs := pre ++ [.evalMarkInput, .domGetDocument, .domQuery,
          .setFileInputFiles nid, .evalDispatchEvents, .evalSnapshot]
        if p.anchored then
          if p.visibleOk then (.ok (), effs ++ [.waitAnchored, .waitVisible])
          else
            (.error .visibleTimeout,
              effs ++ [.waitAnchored, .waitVisible, .diagnostic (strL "attachment-visible")])
        else if p.inputHasFile then (.ok (), effs ++ [.waitAnchored])
        else
          (.error .composerNotRegistered,
            effs ++ [.waitAnchored, .diagnostic (strL "file-upload-missing")])

/-! ### Structure of the normalizer -/

/-- The numeric action of `toLowerAscii`. -/
theorem toLowerAscii_toNat (c : Char) :
    (toLowerAscii c).toNat =
      if 65 ≤ c.toNat ∧ c.toNat ≤ 90 then c.toNat + 32 else c.toNat := by
  unfold toLowerAscii
  split
  · next h => exact char_toNat_ofNat (Or.inl (by omega))
  · rfl

/-- ASCII lower-casing is idempotent. -/
theorem toLowerAscii_idem (c : Char) : toLowerAscii (toLowerAscii c) = toLowerAscii c := by
  have h1 := toLowerAscii_toNat c
  conv_lhs => rw [toLowerAscii]
  split
  · next h =>
    rw [h1] at h
    split at h <;> omega
  · rfl

/-- Lower-casing neither creates nor destroys whitespace. -/
theorem isJsSpace_toLowerAscii (c : Char) : isJsSpace (toLowerAscii c) = isJsSpace c := by
  have h1 := toLowerAscii_toNat c
  unfold isJsSpace
  rw [decide_eq_decide, h1]
  split <;> omega

/-- Members of a `dropWhile` are members of the original list. -/
theorem mem_dropWhile {p : Char → Bool} {c : Char} {l : List Char}
    (h : c ∈ l.dropWhile p) : c ∈ l := by
  rw [← List.takeWhile_append_dropWhile p l]
  exact List.mem_append.mpr (Or.inr h)

/-- Members of the trimmed list are members of the original list. -/
theorem mem_trimWs {c : Char} {l : List Char} (h : c ∈ trimWs l) : c ∈ l := by
  unfold trimWs at h
  rw [List.mem_reverse] at h
  have h2 := mem_dropWhile h
  rw [List.mem_reverse] at h2
  exact mem_dropWhile h2

/-- Every character of a collapsed list is the single blank or a
non-whitespace character of the original list. -/
theorem mem_collapseWs {c : Char} {l : List Char} (h : c ∈ collapseWs l) :
    c = ' ' ∨ (c ∈ l ∧ isJsSpace c = false) := by
  induction l using collapseWs.induct with
  | case1 => simp [collapseWs] at h
  | case2 d hd =>
    rw [collapseWs, if_pos hd] at h
    left
    simpa using h
  | case3 d hd =>
    rw [collapseWs, if_neg hd] at h
    right
    refine ⟨by simpa using h, ?_⟩
    have : c = d := by simpa using h
    subst this
    simpa using hd
  | case4 a d rest h1 h2 ih =>
    rw [collapseWs, if_pos h1, if_pos h2] at h
    rcases ih h with h' | ⟨hmem, hsp⟩
    · exact Or.inl h'
    · exact Or.inr ⟨List.mem_cons_of_mem _ hmem, hsp⟩
  | case5 a d rest h1 h2 ih =>
    rw [collapseWs, if_pos h1, if_neg h2] at h
    rcases List.mem_cons.mp h with h' | h'
    · exact Or.inl h'
    · rcases ih h' with h'' | ⟨hmem, hsp⟩
      · exact Or.inl h''
      · exact Or.inr ⟨List.mem_cons_of_mem _ hmem, hsp⟩
  | case6 a d rest h1 ih =>
    rw [collapseWs, if_neg h1] at h
    rcases List.mem_cons.mp h with h' | h'
    · subst h'
      exact Or.inr ⟨List.mem_cons_self _ _, by simpa using h1⟩
    · rcases ih h' with h'' | ⟨hmem, hsp⟩
      · exact Or.inl h''
      · exact Or.inr ⟨List.mem_cons_of_mem _ hmem, hsp⟩

/-- Every whitespace character of the list is the plain blank. -/
def OnlyBlankSpace (l : List Char) : Prop :=
  ∀ c ∈ l, isJsSpace c = true → c = ' '

/-- No two adjacent characters of the list are both whitespace. -/
def NoAdjSpace (l : List Char) : Prop :=
  l.Chain' fun a b => ¬(isJsSpace a = true ∧ isJsSpace b = true)

/-- A collapsed list headed by a non-whitespace character keeps that head. -/
theorem collapseWs_cons_of_not_space {d : Char} (rest : List Char)
    (hd : ¬isJsSpace d = true) : ∃ ys, collapseWs (d :: rest) = d :: ys := by
  cases rest with
  | nil => exact ⟨[], by rw [collapseWs, if_neg hd]⟩
  | cons e tail => exact ⟨collapseWs (e :: tail), by rw [collapseWs, if_neg hd]⟩

/-- Collapsing leaves only plain blanks as whitespace. -/
theorem onlyBlank_collapseWs (l : List Char) : OnlyBlankSpace (collapseWs l) := by
  intro c hc hsp
  rcases mem_collapseWs hc with h | ⟨_, hfalse⟩
  · exact h
  · rw [hsp] at hfalse
    cases hfalse

/-- Collapsing never leaves two adjacent whitespace characters. -/
theorem noAdjSpace_collapseWs (l : List Char) : NoAdjSpace (collapseWs l) := by
  unfold NoAdjSpace
  induction l using collapseWs.induct with
  | case1 => simp [collapseWs]
  | case2 c h => rw [collapseWs, if_pos h]; simp
  | case3 c h => rw [collapseWs, if_neg h]; simp
  | case4 c d rest h1 h2 ih => rw [collapseWs, if_pos h1, if_pos h2]; exact ih
  | case5 c d rest h1 h2 ih =>
    rw [collapseWs, if_pos h1, if_neg h2, List.chain'_cons']
    refine ⟨?_, ih⟩
    intro y hy
    rcases collapseWs_cons_of_not_space rest h2 with ⟨ys, heq⟩
    rw [heq] at hy
    simp only [List.head?_cons, Option.mem_def, Option.some.injEq] at hy
    subst hy
    intro hcon
    exact h2 hcon.2
  | case6 c d rest h1 ih =>
    rw [collapseWs, if_neg h1, List.chain'_cons']
    refine ⟨?_, ih⟩
    intro y _ hcon
    exact h1 hcon.1

/-- A list whose whitespace is only isolated plain blanks is a fixed point of
collapsing. -/
theorem collapseWs_eq_self {l : List Char} (h1 : OnlyBlankSpace l)
    (h2 : NoAdjSpace l) : collapseWs l = l := by
  induction l using collapseWs.induct with
  | case1 => rfl
  | case2 c hc => rw [collapseWs, if_pos hc, h1 c (by simp) hc]
  | case3 c hc => rw [collapseWs, if_neg hc]
  | case4 c d rest hc hd ih =>
    exfalso
    have := (List.chain'_cons'.mp h2).1 d (by simp)
    exact this ⟨hc, hd⟩
  | case5 c d rest hc hd ih =>
    rw [collapseWs, if_pos hc, if_neg hd]
    have hc' : c = ' ' := h1 c (by simp) hc
    have ih' := ih (fun x hx => h1 x (List.mem_cons_of_mem _ hx))
      (List.chain'_cons'.mp h2).2
    rw [ih', hc']
  | case6 c d rest hc ih =>
    rw [collapseWs, if_neg hc]
    have ih' := ih (fun x hx => h1 x (List.mem_cons_of_mem _ hx))
      (List.chain'_cons'.mp h2).2
    rw [ih']

/-- Trimming preserves the only-blank property. -/
theorem onlyBlank_trimWs {l : List Char} (h : OnlyBlankSpace l) :
    OnlyBlankSpace (trimWs l) :=
  fun c hc => h c (mem_trimWs hc)

/-- Dropping a prefix preserves the no-adjacent-whitespace property. -/
theorem noAdjSpace_dropWhile {p : Char → Bool} {l : List Char}
    (h : NoAdjSpace l) : NoAdjSpace (l.dropWhile p) := by
  unfold NoAdjSpace at *
  rw [← List.takeWhile_append_dropWhile p l] at h
  exact (List.chain'_append.mp h).2.1

/-- Reversal preserves the no-adjacent-whitespace property. -/
theorem noAdjSpace_reverse {l : List Char} (h : NoAdjSpace l) :
    NoAdjSpace l.reverse := by
  unfold NoAdjSpace at *
  rw [List.chain'_reverse]
  exact List.Chain'.imp (fun a b hab hcon => hab ⟨hcon.2, hcon.1⟩) h

/-- Trimming preserves the no-adjacent-whitespace property. -/
theorem noAdjSpace_trimWs {l : List Char} (h : NoAdjSpace l) :
    NoAdjSpace (trimWs l) :=
  noAdjSpace_reverse (noAdjSpace_dropWhile (noAdjSpace_reverse (noAdjSpace_dropWhile h)))

/-- `dropWhile` is idempotent. -/
theorem dropWhile_idem {p : Char → Bool} (l : List Char) :
    (l.dropWhile p).dropWhile p = l.dropWhile p := by
  induction l with
  | nil => rfl
  | cons c rest ih =>
    by_cases h : p c
    · rw [List.dropWhile_cons, if_pos h, ih]
    · rw [List.dropWhile_cons, if_neg h, List.dropWhile_cons, if_neg h]

/-- The head of a non-trivial `dropWhile` fails the predicate. -/
theorem head_dropWhile_false {p : Char → Bool} {l : List Char} {c : Char}
    {cs : List Char} (h : l.dropWhile p = c :: cs) : p c = false := by
  induction l with
  | nil => simp at h
  | cons a rest ih =>
    rw [List.dropWhile_cons] at h
    split at h
    · exact ih h
    · next hp =>
      injection h with h1 _
      subst h1
      simpa using hp

/-- Trimming is idempotent. -/
theorem trimWs_idem (l : List Char) : trimWs (trimWs l) = trimWs l := by
  have hsplit : (l.dropWhile isJsSpace).reverse.takeWhile isJsSpace ++
      (l.dropWhile isJsSpace).reverse.dropWhile isJsSpace =
      (l.dropWhile isJsSpace).reverse :=
    List.takeWhile_append_dropWhile _ _
  have hstep1 : (trimWs l).dropWhile isJsSpace = trimWs l := by
    cases hBr : trimWs l with
    | nil => rfl
    | cons c cs =>
      have hA : l.dropWhile isJsSpace =
          c :: (cs ++ ((l.dropWhile isJsSpace).reverse.takeWhile isJsSpace).reverse) := by
        have := congrArg List.reverse hsplit
        rw [List.reverse_append, List.reverse_reverse] at this
        have hBr' : ((l.dropWhile isJsSpace).reverse.dropWhile isJsSpace).reverse
            = c :: cs := hBr
        rw [hBr'] at this
        simpa using this.symm
      have hc : isJsSpace c = false := head_dropWhile_false hA
      rw [List.dropWhile_cons, if_neg (by simp [hc])]
  have hstep2 : (trimWs l).reverse.dropWhile isJsSpace = (trimWs l).reverse := by
    unfold trimWs
    rw [List.reverse_reverse]
    exact dropWhile_idem _
  show ((((trimWs l).dropWhile isJsSpace).reverse).dropWhile isJsSpace).reverse = trimWs l
  rw [hstep1, hstep2, List.reverse_reverse]

/-- Every character of a normalized name is fixed by lower-casing. -/
theorem map_toLowerAscii_normalizeName (s : List Char) :
    (normalizeName s).map toLowerAscii = normalizeName s := by
  have hmem : ∀ c ∈ normalizeName s, toLowerAscii c = c := by
    intro c hc
    have hc2 : c ∈ collapseWs (s.map toLowerAscii) := mem_trimWs hc
    rcases mem_collapseWs hc2 with h | ⟨hmem', _⟩
    · subst h; decide
    · rcases List.mem_map.mp hmem' with ⟨a, _, rfl⟩
      exact toLowerAscii_idem a
  calc (normalizeName s).map toLowerAscii
      = (normalizeName s).map id := List.map_congr_left hmem
    _ = normalizeName s := List.map_id _

/-! ### Claim theorems -/

/-- C8: the name normalization function (case-fold, collapse internal
whitespace runs to a single space, trim) is idempotent: for every string `s`,
`normalize (normalize s) = normalize s`. -/
theorem c8_normalizeName_idempotent (s : List Char) :
    normalizeName (normalizeName s) = normalizeName s := by
  have h1 : OnlyBlankSpace (normalizeName s) :=
    onlyBlank_trimWs (onlyBlank_collapseWs _)
  have h2 : NoAdjSpace (normalizeName s) :=
    noAdjSpace_trimWs (noAdjSpace_collapseWs _)
  show trimWs (collapseWs ((normalizeName s).map toLowerAscii)) = normalizeName s
  rw [map_toLowerAscii_normalizeName, collapseWs_eq_self h1 h2]
  exact trimWs_idem _

/-- C10: when the structural DOM channel is unavailable,
`uploadAttachmentFile` throws at once, for every page state, with an empty
effect trace — no script evaluation, menu clicking, or other page interaction
happens. -/
theorem c10_dom_unavailable_fails_fast (p : UploadPage) :
    uploadAttachmentFile false p = (.error .domUnavailable, []) := rfl

/-- C9: `waitForUserTurnAttachments` with an empty expected-name list returns
successfully at once for every probe sequence, performing zero page probes,
so no timeout error is possible. -/
theorem c9_empty_expected_immediate (probes : List TurnProbe) :
    waitForUserTurnAttachmentsRun [] probes = (true, 0) := rfl

/-- C5: when no file input exists at priming time and the attachment is not
already present, `uploadAttachmentFile` throws the locator error after
triggering diagnostic capture, and its effect trace contains no
`setFileInputFiles` call and no synthesized events. -/
theorem c5_no_input_locator_error (p : UploadPage)
    (hpresent : p.attachmentPresent = false) (htag : p.inputTagged = false) :
    (uploadAttachmentFile true p).1 = .error .inputNotFound ∧
    UploadEffect.diagnostic (strL "file-input-missing") ∈ (uploadAttachmentFile true p).2 ∧
    (∀ n, UploadEffect.setFileInputFiles n ∉ (uploadAttachmentFile true p).2) ∧
    UploadEffect.evalDispatchEvents ∉ (uploadAttachmentFile true p).2 := by
  simp [uploadAttachmentFile, hpresent, htag]

/-- C5 witness: the concrete page with no attachment present and no file
input found. -/
theorem c5_witness :
    (uploadAttachmentFile true ⟨false, false, none, false, false, false⟩).1 =
      .error .inputNotFound ∧
    UploadEffect.diagnostic (strL "file-input-missing") ∈
      (uploadAttachmentFile true ⟨false, false, none, false, false, false⟩).2 ∧
    (∀ n, UploadEffect.setFileInputFiles n ∉
      (uploadAttachmentFile true ⟨false, false, none, false, false, false⟩).2) ∧
    UploadEffect.evalDispatchEvents ∉
      (uploadAttachmentFile true ⟨false, false, none, false, false, false⟩).2 :=
  c5_no_input_locator_error ⟨false, false, none, false, false, false⟩ rfl rfl

/-- C1: evaluation of both embedded matchers at the claim's example.  The
claim asserts that every ellipsis marker is turned into a wildcard by both
the readiness-wait matcher and the anchored-wait matcher, and in particular
that the truncated candidate with the single-character ellipsis matches.  On
the code, the readiness matcher rewrites only the three-dot marker (its
escape step never escapes the ellipsis character, and its replacement regex
looks for a backslash that was therefore never inserted), while the anchored
matcher rewrites only the single-character ellipsis (its `replaceAll` on
three literal dots cannot see the backslash-escaped dots). -/
theorem c1_ellipsis_wildcard_eval :
    matchCandCompletion (strL "budget-202…xlsx") (strL "budget-2024-full-report.xlsx") = false ∧
    matchCandAnchored (strL "budget-202…xlsx") (strL "budget-2024-full-report.xlsx") = true ∧
    matchCandCompletion (strL "budget-202...xlsx") (strL "budget-2024-full-report.xlsx") = true ∧
    matchCandAnchored (strL "budget-202...xlsx") (strL "budget-2024-full-report.xlsx") = false := by
  decide

/-- C2 counterexample: the match predicates embedded in
`waitForAttachmentCompletion` and `waitForAttachmentAnchored` disagree on the
truncated candidate with the single-character ellipsis, so they are not one
shared function returning the same boolean. -/
theorem c2_counterexample :
    ¬(matchCandCompletion (strL "budget-202…xlsx") (strL "budget-2024-full-report.xlsx") =
      matchCandAnchored (strL "budget-202…xlsx") (strL "budget-2024-full-report.xlsx")) := by
  decide

/-- C3: once `uploading` is false and every expected name fuzzy-matches the
chip/card evidence, the readiness tick returns at once on a `ready` control,
returns at once on a `missing` control with chips present, and sleeps an
extra 500 ms instead of failing on a `disabled` control with chips present;
and a tick with `uploading` true makes no decision at all (it only sleeps the
standard interval, leaving the debounce state untouched). -/
theorem c3_decision_policy (now : Nat) (ims : Option Nat) (v : ProbeSnapshot)
    (e : List (List Char)) (hup : v.uploading = false)
    (hmatch : ∀ x ∈ e, matchesExpectedCompletion
      ((v.attachedNames.map normalizeName).filter fun n => !n.isEmpty) x = true) :
    (v.state = .ready → completionTick now ims v e = .success) ∧
    (v.state = .missing → v.filesAttached = true → completionTick now ims v e = .success) ∧
    (v.state = .disabled → v.filesAttached = true →
      completionTick now ims v e = .sleep 500 ims) ∧
    (∀ now' ims' (w : ProbeSnapshot), w.uploading = true →
      completionTick now' ims' w e = .sleep 250 ims') := by
  have hmiss : (e.filter fun x => !matchesExpectedCompletion
      ((v.attachedNames.map normalizeName).filter fun n => !n.isEmpty) x) = [] := by
    rw [List.filter_eq_nil_iff]
    intro a ha
    rw [hmatch a ha]
    simp
  refine ⟨?_, ?_, ?_, ?_⟩
  · intro hst
    simp [completionTick, hup, hmiss, hst]
  · intro hst hfa
    simp [completionTick, hup, hmiss, hst, hfa]
  · intro hst hfa
    simp [completionTick, hup, hmiss, hst, hfa]
  · intro now' ims' w hw
    simp [completionTick, hw]

/-- C3 witness: a concrete matching snapshot in each of the three control
states, plus a concrete uploading snapshot. -/
theorem c3_witness :
    ((⟨.ready, false, true, [strL "report.csv"], []⟩ : ProbeSnapshot).state = .ready →
      completionTick 0 none ⟨.ready, false, true, [strL "report.csv"], []⟩
        [strL "report.csv"] = .success) ∧
    ((⟨.ready, false, true, [strL "report.csv"], []⟩ : ProbeSnapshot).state = .missing →
      (⟨.ready, false, true, [strL "report.csv"], []⟩ : ProbeSnapshot).filesAttached = true →
      completionTick 0 none ⟨.ready, false, true, [strL "report.csv"], []⟩
        [strL "report.csv"] = .success) ∧
    ((⟨.ready, false, true, [strL "report.csv"], []⟩ : ProbeSnapshot).state = .disabled →
      (⟨.ready, false, true, [strL "report.csv"], []⟩ : ProbeSnapshot).filesAttached = true →
      completionTick 0 none ⟨.ready, false, true, [strL "report.csv"], []⟩
        [strL "report.csv"] = .sleep 500 none) ∧
    (∀ now' ims' (w : ProbeSnapshot), w.uploading = true →
      completionTick now' ims' w [strL "report.csv"] = .sleep 250 ims') :=
  c3_decision_policy 0 none ⟨.ready, false, true, [strL "report.csv"], []⟩
    [strL "report.csv"] rfl (by decide)

/-- `takeWhile` over an append stops exactly at the first failing element. -/
theorem takeWhile_append_stop {p : Char → Bool} {l1 : List Char} {x : Char}
    (l2 : List Char) (h1 : ∀ c ∈ l1, p c = true) (hx : p x = false) :
    (l1 ++ x :: l2).takeWhile p = l1 := by
  induction l1 with
  | nil => simp [List.takeWhile_cons, hx]
  | cons a rest ih =>
    rw [List.cons_append, List.takeWhile_cons,
      if_pos (h1 a (List.mem_cons_self a rest)),
      ih (fun c hc => h1 c (List.mem_cons_of_mem _ hc))]

/-- C6: the extension-stripped rule strips a trailing dot plus one to ten
alphanumerics from the expected name and, only when the remaining stem has at
least six characters, matches when the stem occurs inside the candidate; in
particular `match("report", "report.csv")` is true while
`match("img", "img.png")` is false. -/
theorem c6_stem_rule :
    (∀ stem ext : List Char, ext ≠ [] → ext.length ≤ 10 →
        (∀ c ∈ ext, isAsciiAlnum c = true) → stripExt (stem ++ '.' :: ext) = stem) ∧
    (∀ cand expected : List Char,
        6 ≤ (stripExt (normalizeName (baseName (expected.map toLowerAscii)))).length →
        containsSub (stripExt (normalizeName (baseName (expected.map toLowerAscii))))
          (normalizeName (cand.map toLowerAscii)) = true →
        normalizeName (cand.map toLowerAscii) ≠ [] →
        matchCandCompletion cand expected = true) ∧
    matchCandCompletion (strL "report") (strL "report.csv") = true ∧
    matchCandCompletion (strL "img") (strL "img.png") = false := by
  refine ⟨?_, ?_, by decide, by decide⟩
  · intro stem ext hne hlen hal
    have hrev : (stem ++ '.' :: ext).reverse = ext.reverse ++ '.' :: stem.reverse := by
      simp
    have htake : (ext.reverse ++ '.' :: stem.reverse).takeWhile isAsciiAlnum
        = ext.reverse :=
      takeWhile_append_stop _ (fun c hc => hal c (List.mem_reverse.mp hc)) (by decide)
    simp only [stripExt]
    rw [hrev, htake]
    rw [if_pos ?hcond]
    case hcond =>
      refine ⟨by rw [List.length_reverse]; exact List.length_pos.mpr hne,
        by simpa using hlen, ?_⟩
      rw [List.length_reverse]
      rw [show ext.length = ext.reverse.length by simp, List.drop_left]
      rfl
    rw [List.length_reverse,
      show ext.reverse ++ '.' :: stem.reverse = (ext.reverse ++ ['.']) ++ stem.reverse by simp,
      show ext.length + 1 = (ext.reverse ++ ['.']).length by simp,
      List.drop_left, List.reverse_reverse]
  · intro cand expected hlen hsub hne
    have hie : (normalizeName (cand.map toLowerAscii)).isEmpty = false := by
      cases hcase : (normalizeName (cand.map toLowerAscii)).isEmpty with
      | false => rfl
      | true => exact absurd (List.isEmpty_iff.mp hcase) hne
    have hfil : ([normalizeName (cand.map toLowerAscii)].filter fun n => !n.isEmpty)
        = [normalizeName (cand.map toLowerAscii)] := by
      simp [List.filter, hie]
    unfold matchCandCompletion matchesExpectedCompletion
    rw [hfil]
    simp only [List.any_cons, List.any_nil, Bool.or_false]
    by_cases h1 : containsSub (normalizeName (baseName (expected.map toLowerAscii)))
        (normalizeName (cand.map toLowerAscii)) = true
    · simp [matchRawCompletion, h1]
    · simp only [matchRawCompletion]
      rw [if_neg (by simpa using h1), if_pos ⟨hlen, hsub⟩]

/-- C6 witness: the two concrete examples instantiating the universally
quantified parts. -/
theorem c6_witness :
    stripExt (strL "budget" ++ '.' :: strL "csv") = strL "budget" ∧
    matchCandCompletion (strL "my-quarterly") (strL "my-quarterly.pdf") = true :=
  ⟨c6_stem_rule.1 (strL "budget") (strL "csv") (by decide) (by decide) (by decide),
   c6_stem_rule.2.1 (strL "my-quarterly") (strL "my-quarterly.pdf")
     (by decide) (by decide) (by decide)⟩

/-- Without an ellipsis marker in the candidate, the completion matcher is
substring-or-guarded-stem containment. -/
theorem matchRawCompletion_no_ellipsis {raw nExp noExt : List Char}
    (h1 : containsSub (strL "…") raw = false)
    (h2 : containsSub (strL "...") raw = false) :
    matchRawCompletion raw nExp noExt =
      (containsSub nExp raw || (decide (6 ≤ noExt.length) && containsSub noExt raw)) := by
  unfold matchRawCompletion
  cases hA : containsSub nExp raw <;> cases hC : containsSub noExt raw <;>
    by_cases h6 : 6 ≤ noExt.length <;>
      simp [hA, hC, h6, h1, h2]

/-- Without an ellipsis marker in the (lower-cased, non-empty) candidate, the
anchored matcher is substring-or-guarded-stem containment. -/
theorem matchRawAnchored_no_ellipsis {value nExp noExt : List Char}
    (hne : (value.map toLowerAscii).isEmpty = false)
    (h1 : containsSub (strL "…") (value.map toLowerAscii) = false)
    (h2 : containsSub (strL "...") (value.map toLowerAscii) = false) :
    matchRawAnchored value nExp noExt =
      (containsSub nExp (value.map toLowerAscii) ||
        (decide (6 ≤ noExt.length) && containsSub noExt (value.map toLowerAscii))) := by
  unfold matchRawAnchored
  cases hA : containsSub nExp (value.map toLowerAscii) <;>
    cases hC : containsSub noExt (value.map toLowerAscii) <;>
      by_cases h6 : 6 ≤ noExt.length <;>
        simp [hne, hA, hC, h6, h1, h2]

/-- C2 (amended): on candidates that are already normalized (lower-case,
fixed by whitespace collapsing and trimming), non-empty and free of both
ellipsis markers, and expected names without path separators that are fixed
by normalization, the four embedded match predicates agree; the recorded
counterexample shows they disagree once an ellipsis marker appears. -/
theorem c2_matchers_agree_without_ellipsis (cand expected : List Char)
    (hcand : normalizeName (cand.map toLowerAscii) = cand.map toLowerAscii)
    (hbase : baseName (expected.map toLowerAscii) = expected.map toLowerAscii)
    (hexp : normalizeName (expected.map toLowerAscii) = expected.map toLowerAscii)
    (hne : cand ≠ [])
    (hell1 : containsSub (strL "…") (cand.map toLowerAscii) = false)
    (hell2 : containsSub (strL "...") (cand.map toLowerAscii) = false) :
    matchCandCompletion cand expected = matchCandAnchored cand expected ∧
    matchCandAnchored cand expected = matchCandVisible cand expected ∧
    matchCandVisible cand expected = matchCandUserTurn cand expected := by
  have hmapne : cand.map toLowerAscii ≠ [] := by
    simpa using hne
  have hie : (cand.map toLowerAscii).isEmpty = false := by
    cases hcase : (cand.map toLowerAscii).isEmpty with
    | false => rfl
    | true => exact absurd (List.isEmpty_iff.mp hcase) hmapne
  have hcomp : matchCandCompletion cand expected =
      (containsSub (expected.map toLowerAscii) (cand.map toLowerAscii) ||
        (decide (6 ≤ (stripExt (expected.map toLowerAscii)).length) &&
          containsSub (stripExt (expected.map toLowerAscii)) (cand.map toLowerAscii))) := by
    have hfil : ([cand.map toLowerAscii].filter fun n => !n.isEmpty)
        = [cand.map toLowerAscii] := by
      simp [List.filter, hie]
    unfold matchCandCompletion matchesExpectedCompletion
    rw [hcand, hfil]
    simp only [List.any_cons, List.any_nil, Bool.or_false, hbase, hexp]
    exact matchRawCompletion_no_ellipsis hell1 hell2
  have hanch : matchCandAnchored cand expected =
      (containsSub (expected.map toLowerAscii) (cand.map toLowerAscii) ||
        (decide (6 ≤ (stripExt (expected.map toLowerAscii)).length) &&
          containsSub (stripExt (expected.map toLowerAscii)) (cand.map toLowerAscii))) := by
    unfold matchCandAnchored
    exact matchRawAnchored_no_ellipsis hie hell1 hell2
  have hvis : matchCandVisible cand expected =
      (containsSub (expected.map toLowerAscii) (cand.map toLowerAscii) ||
        (decide (6 ≤ (stripExt (expected.map toLowerAscii)).length) &&
          containsSub (stripExt (expected.map toLowerAscii)) (cand.map toLowerAscii))) := by
    unfold matchCandVisible
    simp only [hie, Bool.false_eq_true, if_false]
  have hut : matchCandUserTurn cand expected =
      (containsSub (expected.map toLowerAscii) (cand.map toLowerAscii) ||
        (decide (6 ≤ (stripExt (expected.map toLowerAscii)).length) &&
          containsSub (stripExt (expected.map toLowerAscii)) (cand.map toLowerAscii))) := by
    unfold matchCandUserTurn userTurnExpectedFound
    rw [hbase, hexp]
  exact ⟨hcomp.trans hanch.symm, hanch.trans hvis.symm, hvis.trans hut.symm⟩

/-- C2 witness: a concrete normalized candidate and expected name on which
all four predicates agree. -/
theorem c2_witness :
    matchCandCompletion (strL "budget.pdf") (strL "budget.pdf") =
      matchCandAnchored (strL "budget.pdf") (strL "budget.pdf") ∧
    matchCandAnchored (strL "budget.pdf") (strL "budget.pdf") =
      matchCandVisible (strL "budget.pdf") (strL "budget.pdf") ∧
    matchCandVisible (strL "budget.pdf") (strL "budget.pdf") =
      matchCandUserTurn (strL "budget.pdf") (strL "budget.pdf") :=
  c2_matchers_agree_without_ellipsis (strL "budget.pdf") (strL "budget.pdf")
    (by decide) (by decide) (by decide) (by decide) (by decide) (by decide)

/-- With enough fuel and a probe that never reports found at any poll time,
the visible loop exits unsuccessfully; the exit time is at or after the
deadline and within one poll interval of it (or is the entry time when the
deadline had already passed at entry). -/
theorem visibleRunAux_never_found {found : Nat → Bool} :
    ∀ (fuel now deadline : Nat), deadline < now + fuel →
    (∀ k, found (now + 200 * k) = false) →
    ∃ t, visibleRunAux fuel found now deadline = (false, t) ∧
      (now < deadline → deadline ≤ t ∧ t < deadline + 200) ∧
      (deadline ≤ now → t = now) := by
  intro fuel
  induction fuel with
  | zero =>
    intro now deadline hfu _
    exact ⟨now, rfl, fun h => absurd h (by omega), fun _ => rfl⟩
  | succ f ih =>
    intro now deadline hfu hfo
    by_cases hlt : now < deadline
    · have h0 : found now = false := by simpa using hfo 0
      have hrw : visibleRunAux (f + 1) found now deadline =
          visibleRunAux f found (now + 200) deadline := by
        simp only [visibleRunAux, if_pos hlt, h0, Bool.false_eq_true, if_false]
      obtain ⟨t, ht, hb, he⟩ := ih (now + 200) deadline (by omega) (fun k => by
        have hk := hfo (k + 1)
        rw [show now + 200 * (k + 1) = now + 200 + 200 * k by ring] at hk
        exact hk)
      refine ⟨t, by rw [hrw, ht], fun _ => ?_, fun hd => absurd hlt (by omega)⟩
      by_cases h2 : now + 200 < deadline
      · exact hb h2
      · have := he (by omega)
        subst this
        omega
    · refine ⟨now, ?_, fun h => absurd h hlt, fun _ => rfl⟩
      simp only [visibleRunAux, if_neg hlt]

/-- With enough fuel, if some poll time before the deadline reports found,
the visible loop returns successfully at a time before the deadline. -/
theorem visibleRunAux_found {found : Nat → Bool} :
    ∀ (fuel now deadline : Nat), deadline < now + fuel →
    (∃ k, now + 200 * k < deadline ∧ found (now + 200 * k) = true) →
    (visibleRunAux fuel found now deadline).1 = true ∧
    (visibleRunAux fuel found now deadline).2 < deadline := by
  intro fuel
  induction fuel with
  | zero =>
    intro now deadline hfu ⟨k, hk, _⟩
    exact absurd hk (by omega)
  | succ f ih =>
    intro now deadline hfu ⟨k, hk, hfk⟩
    have hlt : now < deadline := by omega
    by_cases h0 : found now = true
    · simp only [visibleRunAux, if_pos hlt, h0, if_true]
      exact ⟨trivial, hlt⟩
    · have h0' : found now = false := by simpa using h0
      have hrw : visibleRunAux (f + 1) found now deadline =
          visibleRunAux f found (now + 200) deadline := by
        simp only [visibleRunAux, if_pos hlt, h0', Bool.false_eq_true, if_false]
      rw [hrw]
      rcases k with _ | k'
      · rw [show now + 200 * 0 = now by ring] at hfk
        exact absurd hfk (by simp [h0'])
      · refine ih (now + 200) deadline (by omega) ⟨k', ?_, ?_⟩
        · rw [show now + 200 + 200 * k' = now + 200 * (k' + 1) by ring]
          exact hk
        · rw [show now + 200 + 200 * k' = now + 200 * (k' + 1) by ring]
          exact hfk

/-- C7: over every probe sequence, if no poll tick ever reports the expected
name, `waitForAttachmentVisible` reaches the terminal throw no earlier than
the deadline and within one poll interval past it; conversely if some poll
tick before the deadline reports found, the wait returns successfully before
the deadline. -/
theorem c7_visible_timeout_bounds (found : Nat → Bool) (start timeoutMs : Nat) :
    ((∀ k, found (start + 200 * k) = false) →
      (waitForAttachmentVisibleRun found start timeoutMs).1 = false ∧
      start + timeoutMs ≤ (waitForAttachmentVisibleRun found start timeoutMs).2 ∧
      (waitForAttachmentVisibleRun found start timeoutMs).2 < start + timeoutMs + 200) ∧
    ((∃ k, start + 200 * k < start + timeoutMs ∧ found (start + 200 * k) = true) →
      (waitForAttachmentVisibleRun found start timeoutMs).1 = true ∧
      (waitForAttachmentVisibleRun found start timeoutMs).2 < start + timeoutMs) := by
  constructor
  · intro hfo
    obtain ⟨t, ht, hb, he⟩ := visibleRunAux_never_found (timeoutMs + 1) start
      (start + timeoutMs) (by omega) hfo
    unfold waitForAttachmentVisibleRun
    rw [ht]
    by_cases h : start < start + timeoutMs
    · obtain ⟨h1, h2⟩ := hb h
      exact ⟨rfl, h1, h2⟩
    · have ht' := he (by omega)
      subst ht'
      exact ⟨rfl, by omega, by omega⟩
  · intro hex
    exact visibleRunAux_found (timeoutMs + 1) start (start + timeoutMs) (by omega) hex

/-- C7 witness: a 500 ms deadline with a never-found probe exits between 500
and 700 ms; an immediately-found probe returns before the deadline. -/
theorem c7_witness :
    ((waitForAttachmentVisibleRun (fun _ => false) 0 500).1 = false ∧
      0 + 500 ≤ (waitForAttachmentVisibleRun (fun _ => false) 0 500).2 ∧
      (waitForAttachmentVisibleRun (fun _ => false) 0 500).2 < 0 + 500 + 200) ∧
    ((waitForAttachmentVisibleRun (fun _ => true) 0 500).1 = true ∧
      (waitForAttachmentVisibleRun (fun _ => true) 0 500).2 < 0 + 500) :=
  ⟨(c7_visible_timeout_bounds (fun _ => false) 0 500).1 (fun _ => rfl),
   (c7_visible_timeout_bounds (fun _ => true) 0 500).2 ⟨0, by decide, rfl⟩⟩

/-- Chip/card evidence for a snapshot: every expected name matches some
normalized chip/card text (`missing.length === 0` in the loop body). -/
def chipEvidence (expectedNormalized : List (List Char)) (v : ProbeSnapshot) : Bool :=
  (expectedNormalized.filter fun x => !matchesExpectedCompletion
    ((v.attachedNames.map normalizeName).filter fun n => !n.isEmpty) x).isEmpty

/-- The fallback condition of the readiness wait as observed on one snapshot:
every expected name matches some normalized file-input name and the send
control is `ready` (`inputMissing.length === 0 && value.state === 'ready'`). -/
def fallbackCondition (expectedNormalized : List (List Char)) (v : ProbeSnapshot) : Bool :=
  (expectedNormalized.filter fun x => !inputNameMatches
    ((v.inputNames.map normalizeName).filter fun n => !n.isEmpty) x).isEmpty
  && decide (v.state = ControlState.ready)

/-- A tick with the uploading indicator active only sleeps the standard
interval and keeps the debounce state. -/
theorem tick_uploading {now : Nat} {ims : Option Nat} {v : ProbeSnapshot}
    {e : List (List Char)} (hup : v.uploading = true) :
    completionTick now ims v e = .sleep 250 ims := by
  simp [completionTick, hup]

/-- A non-uploading tick without chip evidence whose fallback condition holds
either succeeds (debounce window exceeded) or sleeps keeping the anchor. -/
theorem tick_fallback {now : Nat} {ims : Option Nat} {v : ProbeSnapshot}
    {e : List (List Char)} (hupf : v.uploading = false)
    (hchip : chipEvidence e v = false) (hfb : fallbackCondition e v = true) :
    completionTick now ims v e =
      if 1500 < now - ims.getD now then .success
      else .sleep 250 (some (ims.getD now)) := by
  have hchip' : (e.filter fun x => !matchesExpectedCompletion
      ((v.attachedNames.map normalizeName).filter fun n => !n.isEmpty) x).isEmpty
      = false := hchip
  unfold fallbackCondition at hfb
  rw [Bool.and_eq_true] at hfb
  obtain ⟨h1, h2⟩ := hfb
  have h2' : v.state = ControlState.ready := of_decide_eq_true h2
  simp [completionTick, hupf, hchip', h1, h2']

/-- A non-uploading tick without chip evidence whose fallback condition fails
resets the debounce anchor and sleeps. -/
theorem tick_no_evidence {now : Nat} {ims : Option Nat} {v : ProbeSnapshot}
    {e : List (List Char)} (hupf : v.uploading = false)
    (hchip : chipEvidence e v = false) (hfb : fallbackCondition e v = false) :
    completionTick now ims v e = .sleep 250 none := by
  have hchip' : (e.filter fun x => !matchesExpectedCompletion
      ((v.attachedNames.map normalizeName).filter fun n => !n.isEmpty) x).isEmpty
      = false := hchip
  by_cases hst : v.state = ControlState.ready
  · have hinput : (e.filter fun x => !inputNameMatches
        ((v.inputNames.map normalizeName).filter fun n => !n.isEmpty) x).isEmpty
        = false := by
      cases hq : (e.filter fun x => !inputNameMatches
          ((v.inputNames.map normalizeName).filter fun n => !n.isEmpty) x).isEmpty with
      | false => rfl
      | true =>
        exfalso
        unfold fallbackCondition at hfb
        rw [hq, hst] at hfb
        simp at hfb
    simp [completionTick, hupf, hchip', hinput]
  · simp [completionTick, hupf, hchip', hst]

/-- C4 counterexample: a run in which the fallback evidence is present at
times 0 and 1600 but absent at the intermediate uploading tick at time 300,
yet the wait succeeds at 1600 — even though, under the claim's reset rule,
the window restarted at 300 and only 1300 ms < 1.5 s of it had elapsed.  A
tick with `uploading` true skips the whole decision body, including the
`inputMatchSince = null` reset, so the debounce anchor from time 0 survives. -/
theorem c4_counterexample :
    completionRun [strL "report.csv"] none
      [(0, ⟨.ready, false, false, [], [strL "report.csv"]⟩),
       (300, ⟨.disabled, true, false, [], []⟩),
       (1600, ⟨.ready, false, false, [], [strL "report.csv"]⟩)] = some 1600 ∧
    fallbackCondition [strL "report.csv"] ⟨.disabled, true, false, [], []⟩ = false ∧
    1600 - 300 < 1500 := by
  decide

/-- Invariant of the readiness loop on chip-less runs: reaching success at
time `T` requires a debounce anchor `t0` more than 1500 ms old, originating
either in the incoming state or at a tick where the fallback condition held,
and every tick between the anchor and the success either had `uploading`
true or satisfied the fallback condition. -/
theorem c4_aux (e : List (List Char)) :
    ∀ (ticks : List (Nat × ProbeSnapshot)) (ims : Option Nat) (T : Nat),
    ticks.Pairwise (fun a b => a.1 < b.1) →
    (∀ p ∈ ticks, chipEvidence e p.2 = false) →
    completionRun e ims ticks = some T →
    ∃ t0, 1500 < T - t0 ∧
      (ims = some t0 ∨ ∃ v0, (t0, v0) ∈ ticks ∧ v0.uploading = false ∧
        fallbackCondition e v0 = true) ∧
      ∀ p ∈ ticks, t0 ≤ p.1 → p.1 ≤ T →
        p.2.uploading = true ∨ fallbackCondition e p.2 = true := by
  intro ticks
  induction ticks with
  | nil =>
    intro ims T _ _ h
    simp [completionRun] at h
  | cons head rest ih =>
    obtain ⟨t, v⟩ := head
    intro ims T hpw hchip hrun
    have hchiphead : chipEvidence e v = false := hchip (t, v) (List.mem_cons_self _ _)
    have hlt := (List.pairwise_cons.mp hpw).1
    have hpw' := (List.pairwise_cons.mp hpw).2
    have hchip' : ∀ p ∈ rest, chipEvidence e p.2 = false :=
      fun p hp => hchip p (List.mem_cons_of_mem _ hp)
    by_cases hup : v.uploading = true
    · simp only [completionRun, tick_uploading hup] at hrun
      obtain ⟨t0, hgap, hsrc, hall⟩ := ih ims T hpw' hchip' hrun
      refine ⟨t0, hgap, ?_, ?_⟩
      · rcases hsrc with h | ⟨v0, hm, hu, hf⟩
        · exact Or.inl h
        · exact Or.inr ⟨v0, List.mem_cons_of_mem _ hm, hu, hf⟩
      · intro p hp h1 h2
        rcases List.mem_cons.mp hp with rfl | hp'
        · exact Or.inl hup
        · exact hall p hp' h1 h2
    · have hupf : v.uploading = false := by simpa using hup
      by_cases hfb : fallbackCondition e v = true
      · simp only [completionRun, tick_fallback hupf hchiphead hfb] at hrun
        by_cases hgap : 1500 < t - ims.getD t
        · rw [if_pos hgap] at hrun
          have hT : t = T := Option.some.inj hrun
          subst hT
          cases ims with
          | none => simp at hgap
          | some t0 =>
            refine ⟨t0, by simpa using hgap, Or.inl rfl, ?_⟩
            intro p hp h1 h2
            rcases List.mem_cons.mp hp with rfl | hp'
            · exact Or.inr hfb
            · exact absurd h2 (by have := hlt p hp'; omega)
        · rw [if_neg hgap] at hrun
          obtain ⟨t0, hgap', hsrc, hall⟩ := ih (some (ims.getD t)) T hpw' hchip' hrun
          rcases hsrc with hsome | ⟨v0, hm, hu, hf⟩
          · have ht0 : ims.getD t = t0 := Option.some.inj hsome
            cases ims with
            | none =>
              have ht : t = t0 := ht0
              subst ht
              refine ⟨t, hgap', Or.inr ⟨v, List.mem_cons_self _ _, hupf, hfb⟩, ?_⟩
              intro p hp h1 h2
              rcases List.mem_cons.mp hp with rfl | hp'
              · exact Or.inr hfb
              · exact hall p hp' h1 h2
            | some u =>
              have hu' : u = t0 := ht0
              subst hu'
              refine ⟨u, hgap', Or.inl rfl, ?_⟩
              intro p hp h1 h2
              rcases List.mem_cons.mp hp with rfl | hp'
              · exact Or.inr hfb
              · exact hall p hp' h1 h2
          · refine ⟨t0, hgap', Or.inr ⟨v0, List.mem_cons_of_mem _ hm, hu, hf⟩, ?_⟩
            intro p hp h1 h2
            rcases List.mem_cons.mp hp with rfl | hp'
            · exact Or.inr hfb
            · exact hall p hp' h1 h2
      · have hfbf : fallbackCondition e v = false := by simpa using hfb
        simp only [completionRun, tick_no_evidence hupf hchiphead hfbf] at hrun
        obtain ⟨t0, hgap', hsrc, hall⟩ := ih none T hpw' hchip' hrun
        rcases hsrc with hsome | ⟨v0, hm, hu, hf⟩
        · exact absurd hsome (by simp)
        · refine ⟨t0, hgap', Or.inr ⟨v0, List.mem_cons_of_mem _ hm, hu, hf⟩, ?_⟩
          intro p hp h1 h2
          rcases List.mem_cons.mp hp with rfl | hp'
          · exfalso
            have htlt : t < t0 := hlt (t0, v0) hm
            omega
          · exact hall p hp' h1 h2

/-- C4 (amended): on runs where chip evidence never appears, the readiness
wait succeeds via the file-input fallback at time `T` only if the debounce
anchor was set more than 1500 ms earlier at a tick where the condition
(all expected names match file-input evidence and the control is ready)
held, and every tick from the anchor to the success either had the uploading
indicator active — such ticks skip the decision body and leave the timer
untouched — or satisfied the condition; a non-uploading tick where the
condition fails resets the timer. -/
theorem c4_fallback_debounce (e : List (List Char))
    (ticks : List (Nat × ProbeSnapshot)) (T : Nat)
    (hpw : ticks.Pairwise fun a b => a.1 < b.1)
    (hnochip : ∀ p ∈ ticks, chipEvidence e p.2 = false)
    (hrun : completionRun e none ticks = some T) :
    ∃ t0, 1500 < T - t0 ∧
      (∃ v0, (t0, v0) ∈ ticks ∧ v0.uploading = false ∧
        fallbackCondition e v0 = true) ∧
      ∀ p ∈ ticks, t0 ≤ p.1 → p.1 ≤ T →
        p.2.uploading = true ∨ fallbackCondition e p.2 = true := by
  obtain ⟨t0, hgap, hsrc, hall⟩ := c4_aux e ticks none T hpw hnochip hrun
  rcases hsrc with h | h
  · exact absurd h (by simp)
  · exact ⟨t0, hgap, h, hall⟩

/-- C4 witness: a two-tick run with continuous fallback evidence succeeding
at 1700 ms, whose anchor is the tick at time 0. -/
theorem c4_witness :
    ∃ t0, 1500 < 1700 - t0 ∧
      (∃ v0, (t0, v0) ∈
          [(0, (⟨.ready, false, false, [], [strL "report.csv"]⟩ : ProbeSnapshot)),
           (1700, ⟨.ready, false, false, [], [strL "report.csv"]⟩)] ∧
        v0.uploading = false ∧ fallbackCondition [strL "report.csv"] v0 = true) ∧
      ∀ p ∈ [(0, (⟨.ready, false, false, [], [strL "report.csv"]⟩ : ProbeSnapshot)),
           (1700, ⟨.ready, false, false, [], [strL "report.csv"]⟩)],
        t0 ≤ p.1 → p.1 ≤ 1700 →
        p.2.uploading = true ∨ fallbackCondition [strL "report.csv"] p.2 = true :=
  c4_fallback_debounce [strL "report.csv"]
    [(0, ⟨.ready, false, false, [], [strL "report.csv"]⟩),
     (1700, ⟨.ready, false, false, [], [strL "report.csv"]⟩)] 1700
    (by decide) (by decide) (by decide)

end Oracle
